import Mathlib

/-!
# Verification of the Pomodoro gamification engine

Shallow embedding of `pomodoro_app/gamification.py` (class `GamificationSystem`):
the event-log reader, the statistics aggregator, the streak calculator, the
XP/level calculator, the achievement evaluator and the facade operations
`get_gamification_data` / `award_xp`.

Modelling conventions:
* Python `datetime.date` values are modelled by a `Date` structure
  (year/month/day); day arithmetic and date comparisons go through the
  injective rata-die day count `Date.toDays` (Python compares and subtracts
  valid dates, which agrees with comparing day counts).
* Machine integers are `Nat`/`Int`; Python integers are unbounded, so no
  overflow modelling is needed.
* The log file is `Option (List String)`: `none` models a missing file,
  `some lines` the file split into its lines.
* The persisted JSON ledger is modelled by its only field the engine ever
  reads or writes, the `achievements` id list; saving to disk is modelled by
  the updated state being the state the next operation sees.
* Numeric digits in timestamps are modelled as ASCII digits (Python's regex
  `\d` would additionally accept non-ASCII Unicode digits).
* Floating-point derived fields (`completion_rate`, `average_daily_sessions`,
  `progress_percentage`) are outside the claims and are not modelled.
-/

namespace Pomodoro

/-! ## Calendar dates -/

/-- Python `datetime.date`: a calendar date.  Dates produced by the log parser are
valid Gregorian dates with `1 ≤ year ≤ 9999`. -/
structure Date where
  year : Nat
  month : Nat
  day : Nat
deriving DecidableEq, Repr

/-- Gregorian leap-year test (as in Python's `calendar`/`datetime`). -/
def isLeapYear (y : Nat) : Bool :=
  (y % 4 == 0 && y % 100 != 0) || y % 400 == 0

/-- Number of days in a month of a given year. -/
def daysInMonth (y m : Nat) : Nat :=
  if m = 2 then (if isLeapYear y then 29 else 28)
  else if m = 4 ∨ m = 6 ∨ m = 9 ∨ m = 11 then 30
  else 31

/-- Rata-die style day count (days-from-civil algorithm, era of 400 years);
injective on valid dates and ordered like the dates themselves. -/
def Date.rata (d : Date) : Nat :=
  let y := if d.month ≤ 2 then d.year - 1 else d.year
  let era := y / 400
  let yoe := y % 400
  let mp := (d.month + 9) % 12
  let doy := (153 * mp + 2) / 5 + d.day - 1
  let doe := yoe * 365 + yoe / 4 - yoe / 100 + doy
  era * 146097 + doe

/-- Days since the Unix epoch 1970-01-01 (can be negative for old dates). -/
def Date.toDays (d : Date) : Int := (d.rata : Int) - 719468

/-- Python `date.weekday()`: Monday = 0 … Sunday = 6.
1970-01-01 (day 0) was a Thursday (= 3). -/
def Date.weekday (d : Date) : Int := (d.toDays + 3) % 7

/-- Python `datetime.datetime` restricted to what the engine uses: the date part plus
the time-of-day fields. -/
structure Timestamp where
  date : Date
  hour : Nat
  minute : Nat
  second : Nat
deriving DecidableEq, Repr

/-! ## Event log reader (`_parse_log_file`)

`datetime.strptime(s, '%Y-%m-%d %H:%M:%S')` is modelled directive by
directive after CPython's `_strptime` regular expression:
`%Y ↦ \d{4}`, `%m ↦ 1[0-2]|0[1-9]|[1-9]`, `%d ↦ 3[01]|[12]\d|0[1-9]|[1-9]`,
`%H ↦ 2[0-3]|[0-1]\d|\d`, `%M ↦ [0-5]\d|\d`, `%S ↦ 6[0-1]|[0-5]\d|\d`,
a literal space matches one or more whitespace characters, the whole string
must be consumed, and the parsed fields must then form a constructible
`datetime` (valid day of month, year ≥ 1, second ≤ 59). -/

/-- One recorded timer event, as parsed from a log line. -/
structure SessionEvent where
  timestamp : Timestamp
  session_type : String
  action : String
  session_number : String
deriving DecidableEq, Repr

/-- Numeric value of an ASCII digit character. -/
def digitVal (c : Char) : Nat := c.toNat - 48

/-- Test `lo ≤ c ≤ hi` on characters, as a boolean. -/
def charBetween (lo hi c : Char) : Bool := decide (lo ≤ c) && decide (c ≤ hi)

/-- Directive `%Y`: exactly four digits. -/
def parseYear4 : List Char → Option (Nat × List Char)
  | a :: b :: c :: d :: rest =>
    if a.isDigit && b.isDigit && c.isDigit && d.isDigit then
      some (((digitVal a * 10 + digitVal b) * 10 + digitVal c) * 10 + digitVal d, rest)
    else none
  | _ => none

/-- Directive `%m`: `1[0-2]|0[1-9]|[1-9]`, alternatives tried in regex order. -/
def parseMonth2 : List Char → Option (Nat × List Char)
  | c1 :: c2 :: rest =>
    if c1 == '1' && charBetween '0' '2' c2 then some (10 + digitVal c2, rest)
    else if c1 == '0' && charBetween '1' '9' c2 then some (digitVal c2, rest)
    else if charBetween '1' '9' c1 then some (digitVal c1, c2 :: rest)
    else none
  | [c1] => if charBetween '1' '9' c1 then some (digitVal c1, []) else none
  | [] => none

/-- Directive `%d`: `3[01]|[12]\d|0[1-9]|[1-9]`. -/
def parseDay2 : List Char → Option (Nat × List Char)
  | c1 :: c2 :: rest =>
    if c1 == '3' && charBetween '0' '1' c2 then some (30 + digitVal c2, rest)
    else if (c1 == '1' || c1 == '2') && c2.isDigit then
      some (digitVal c1 * 10 + digitVal c2, rest)
    else if c1 == '0' && charBetween '1' '9' c2 then some (digitVal c2, rest)
    else if charBetween '1' '9' c1 then some (digitVal c1, c2 :: rest)
    else none
  | [c1] => if charBetween '1' '9' c1 then some (digitVal c1, []) else none
  | [] => none

/-- Directive `%H`: `2[0-3]|[0-1]\d|\d`. -/
def parseHour2 : List Char → Option (Nat × List Char)
  | c1 :: c2 :: rest =>
    if c1 == '2' && charBetween '0' '3' c2 then some (20 + digitVal c2, rest)
    else if (c1 == '0' || c1 == '1') && c2.isDigit then
      some (digitVal c1 * 10 + digitVal c2, rest)
    else if c1.isDigit then some (digitVal c1, c2 :: rest)
    else none
  | [c1] => if c1.isDigit then some (digitVal c1, []) else none
  | [] => none

/-- Directive `%M`: `[0-5]\d|\d`. -/
def parseMinute2 : List Char → Option (Nat × List Char)
  | c1 :: c2 :: rest =>
    if charBetween '0' '5' c1 && c2.isDigit then
      some (digitVal c1 * 10 + digitVal c2, rest)
    else if c1.isDigit then some (digitVal c1, c2 :: rest)
    else none
  | [c1] => if c1.isDigit then some (digitVal c1, []) else none
  | [] => none

/-- Directive `%S`: `6[0-1]|[0-5]\d|\d` (60/61 pass the regex but fail `datetime`). -/
def parseSecond2 : List Char → Option (Nat × List Char)
  | c1 :: c2 :: rest =>
    if c1 == '6' && charBetween '0' '1' c2 then some (60 + digitVal c2, rest)
    else if charBetween '0' '5' c1 && c2.isDigit then
      some (digitVal c1 * 10 + digitVal c2, rest)
    else if c1.isDigit then some (digitVal c1, c2 :: rest)
    else none
  | [c1] => if c1.isDigit then some (digitVal c1, []) else none
  | [] => none

/-- Consume a maximal run of whitespace. -/
def skipWsMany : List Char → List Char
  | c :: rest => if c.isWhitespace then skipWsMany rest else c :: rest
  | [] => []

/-- Whitespace `\s+`: at least one whitespace character. -/
def skipWs1 : List Char → Option (List Char)
  | c :: rest => if c.isWhitespace then some (skipWsMany rest) else none
  | [] => none

/-- A literal character of the format string. -/
def expectChar (c : Char) : List Char → Option (List Char)
  | x :: rest => if x == c then some rest else none
  | [] => none

/-- Python `str.strip()`: remove leading and trailing whitespace. -/
def trimChars (l : List Char) : List Char :=
  ((l.dropWhile Char.isWhitespace).reverse.dropWhile Char.isWhitespace).reverse

/-- Python `str.split(' | ')`: split on the 3-character separator `' | '`,
scanning left to right, non-overlapping occurrences. -/
def splitPipeAux : List Char → List Char → List String
  | x :: y :: z :: rest, acc =>
    if x == ' ' && y == '|' && z == ' ' then
      String.mk acc.reverse :: splitPipeAux rest []
    else splitPipeAux (y :: z :: rest) (x :: acc)
  | l, acc => [String.mk (acc.reverse ++ l)]

/-- Python `datetime.strptime(s, '%Y-%m-%d %H:%M:%S')`, returning `none` exactly
when CPython raises `ValueError` (no regex match, unconverted data remains,
or the matched fields do not form a constructible `datetime`). -/
def strptimeYmdHms (l : List Char) : Option Timestamp := do
  let (y, l) ← parseYear4 l
  let l ← expectChar '-' l
  let (mo, l) ← parseMonth2 l
  let l ← expectChar '-' l
  let (d, l) ← parseDay2 l
  let l ← skipWs1 l
  let (h, l) ← parseHour2 l
  let l ← expectChar ':' l
  let (mi, l) ← parseMinute2 l
  let l ← expectChar ':' l
  let (sec, l) ← parseSecond2 l
  if l.isEmpty && 1 ≤ y && d ≤ daysInMonth y mo && sec ≤ 59 then
    some ⟨⟨y, mo, d⟩, h, mi, sec⟩
  else none

/-- One iteration of the `for line in f` loop of `_parse_log_file`: strip the
line, skip it if empty, split on `' | '`, require exactly 4 fields and a
parsable timestamp; `none` means the line is silently dropped. -/
def parseLogLine (raw : String) : Option SessionEvent :=
  let line := trimChars raw.toList
  if line.isEmpty then none
  else
    match splitPipeAux line [] with
    | [t, ty, ac, num] =>
      match strptimeYmdHms t.toList with
      | some ts => some ⟨ts, ty, ac, num⟩
      | none => none
    | _ => none

/-- Python `_parse_log_file`: a missing file yields `[]`; otherwise the kept lines,
in file order. -/
def parseLogFile (content : Option (List String)) : List SessionEvent :=
  match content with
  | none => []
  | some lines => lines.filterMap parseLogLine

/-! ## XP / level calculator (`calculate_xp_and_level`) -/

def XP_WORK_COMPLETED : Nat := 25
def XP_BREAK_COMPLETED : Nat := 5

def LEVEL_THRESHOLDS : List Int :=
  [0, 100, 250, 500, 800, 1200, 1700, 2300, 3000, 3800, 4700]

/-- XP accumulation loop: `+25` per completed work session, `+5` per any
other completed session, nothing for the rest. -/
def totalXp (events : List SessionEvent) : Nat :=
  events.foldl (fun acc s =>
    if s.action == "completed" then
      if s.session_type == "work" then acc + XP_WORK_COMPLETED
      else acc + XP_BREAK_COMPLETED
    else acc) 0

/-- Loop `level = 1; for i, threshold in enumerate(LEVEL_THRESHOLDS): if total_xp >=
threshold: level = i + 1` — also used by `award_xp` for the pre-event level,
where the XP argument can be negative. -/
def levelLoop (xp : Int) : List Int → Nat → Nat → Nat
  | [], _, lvl => lvl
  | t :: rest, i, lvl => levelLoop xp rest (i + 1) (if xp ≥ t then i + 1 else lvl)

def levelFromXp (xp : Int) : Nat := levelLoop xp LEVEL_THRESHOLDS 0 1

/-- The dictionary returned by `calculate_xp_and_level`
(minus the floating-point `progress_percentage`). -/
structure XpLevel where
  total_xp : Nat
  level : Nat
  xp_in_level : Int
  xp_for_next_level : Int
deriving DecidableEq, Repr

/-- Python `current_level_threshold = LEVEL_THRESHOLDS[level - 1] if level <=
len(LEVEL_THRESHOLDS) else 0`. -/
def currentThreshold (level : Nat) : Int :=
  if level ≤ LEVEL_THRESHOLDS.length then LEVEL_THRESHOLDS.getD (level - 1) 0 else 0

/-- Python `next_level_threshold = LEVEL_THRESHOLDS[level] if level <
len(LEVEL_THRESHOLDS) else current_level_threshold + 1000`. -/
def nextThreshold (level : Nat) : Int :=
  if level < LEVEL_THRESHOLDS.length then LEVEL_THRESHOLDS.getD level 0
  else currentThreshold level + 1000

/-- Body of `calculate_xp_and_level` after the XP sum has been computed. -/
def xpRecordFromTotal (total_xp : Nat) : XpLevel :=
  { total_xp := total_xp
    level := levelFromXp total_xp
    xp_in_level := (total_xp : Int) - currentThreshold (levelFromXp total_xp)
    xp_for_next_level :=
      nextThreshold (levelFromXp total_xp) - currentThreshold (levelFromXp total_xp) }

def calculateXpAndLevel (events : List SessionEvent) : XpLevel :=
  xpRecordFromTotal (totalXp events)

/-! ## Streak calculator (`calculate_streaks`) -/

def isCompletedWork (e : SessionEvent) : Bool :=
  e.action == "completed" && e.session_type == "work"

/-- The Python set `completed_dates` (distinct day numbers of completed work
sessions), as a duplicate-free list. -/
def completedWorkDays (events : List SessionEvent) : List Int :=
  ((events.filter isCompletedWork).map (fun e => e.timestamp.date.toDays)).dedup

/-- Does some completed work session fall on day number `d`? -/
def dayHasCompletedWork (events : List SessionEvent) (d : Int) : Bool :=
  events.any (fun e => isCompletedWork e && e.timestamp.date.toDays == d)

/-- Loop `while check_date in completed_dates: current_streak += 1; check_date -=
timedelta(days=1)`.  The Python loop has no fuel; it terminates because the
set is finite, and every fuel strictly larger than the longest possible
consecutive run (such as `dates.length + 1`) yields the loop's value. -/
def countBack (dates : List Int) : Int → Nat → Nat
  | _, 0 => 0
  | d, fuel + 1 => if dates.contains d then countBack dates (d - 1) fuel + 1 else 0

/-- The `for i in range(1, len(sorted_dates))` scan computing the longest
streak, with `prev = sorted_dates[i-1]` made explicit, followed by the final
`longest_streak = max(longest_streak, temp_streak)`. -/
def longestLoop : Int → Nat → Nat → List Int → Nat
  | _, longest, temp, [] => max longest temp
  | prev, longest, temp, d :: rest =>
    if d - prev == 1 then longestLoop d longest (temp + 1) rest
    else longestLoop d (max longest temp) 1 rest

/-- Scan `longestLoop` with the running maximum factored out. -/
def runScan : Int → Nat → List Int → Nat
  | _, temp, [] => temp
  | prev, temp, d :: rest =>
    if d - prev == 1 then runScan d (temp + 1) rest
    else max temp (runScan d 1 rest)

structure Streaks where
  current_streak : Nat
  longest_streak : Nat
deriving DecidableEq, Repr

def calculateStreaks (events : List SessionEvent) (today : Date) : Streaks :=
  if events.isEmpty then ⟨0, 0⟩
  else
    let dates := completedWorkDays events
    if dates.isEmpty then ⟨0, 0⟩
    else
      let t := today.toDays
      let current : Nat :=
        if dates.contains t || dates.contains (t - 1) then
          let anchor := if dates.contains t then t else t - 1
          countBack dates anchor (dates.length + 1)
        else 0
      let longest : Nat :=
        match dates.insertionSort (· ≤ ·) with
        | [] => 0
        | d :: rest => longestLoop d 0 1 rest
      ⟨current, longest⟩

/-! ## Statistics aggregator (`calculate_statistics`) -/

/-- The counters of `calculate_statistics` used by the claims (the
floating-point `completion_rate` / `average_daily_sessions` and the raw
30-day `daily_counts` dictionary are not modelled; `best_day_count` — the
maximum of the daily counts — is). -/
structure Stats where
  total_completed : Nat
  total_skipped : Nat
  today_count : Nat
  this_week_count : Nat
  this_month_count : Nat
  total_focus_minutes : Nat
  best_day_count : Nat
deriving DecidableEq, Repr

/-- Day numbers (with multiplicity) of all completed sessions — the keys the
`daily_counts` dictionary is built from. -/
def completedDays (events : List SessionEvent) : List Int :=
  (events.filter (fun e => e.action == "completed")).map (fun e => e.timestamp.date.toDays)

/-- Python `max(daily_counts.values())` if the dictionary is nonempty, else 0. -/
def bestDayCount (events : List SessionEvent) : Nat :=
  let ds := completedDays events
  (ds.dedup.map (fun d => ds.count d)).foldl max 0

/-- The `for session in sessions` counting loop of `calculate_statistics`. -/
def statsLoop (todayD weekStart monthStart : Int) :
    List SessionEvent → Stats → Stats
  | [], st => st
  | e :: rest, st =>
    let st' :=
      if e.action == "completed" then
        let d := e.timestamp.date.toDays
        { st with
          total_completed := st.total_completed + 1
          total_focus_minutes :=
            st.total_focus_minutes + (if e.session_type == "work" then 25 else 0)
          today_count := st.today_count + (if d == todayD then 1 else 0)
          this_week_count := st.this_week_count + (if d ≥ weekStart then 1 else 0)
          this_month_count := st.this_month_count + (if d ≥ monthStart then 1 else 0) }
      else { st with total_skipped := st.total_skipped + 1 }
    statsLoop todayD weekStart monthStart rest st'

/-- Python `week_start = today - timedelta(days=today.weekday())` as a day number. -/
def weekStartDays (today : Date) : Int := today.toDays - today.weekday

/-- Python `month_start = today.replace(day=1)` as a day number. -/
def monthStartDays (today : Date) : Int := (Date.mk today.year today.month 1).toDays

def calculateStatistics (events : List SessionEvent) (today : Date) : Stats :=
  let base := statsLoop today.toDays (weekStartDays today) (monthStartDays today)
    events ⟨0, 0, 0, 0, 0, 0, 0⟩
  { base with best_day_count := bestDayCount events }

/-! ## Achievement evaluator -/

/-- The merge `{**stats, **streaks}` fed to the achievement predicates. -/
structure CombinedStats where
  total_completed : Nat
  total_skipped : Nat
  today_count : Nat
  this_week_count : Nat
  this_month_count : Nat
  total_focus_minutes : Nat
  best_day_count : Nat
  current_streak : Nat
  longest_streak : Nat
deriving DecidableEq, Repr

def combinedStats (events : List SessionEvent) (today : Date) : CombinedStats :=
  let s := calculateStatistics events today
  let k := calculateStreaks events today
  ⟨s.total_completed, s.total_skipped, s.today_count, s.this_week_count,
   s.this_month_count, s.total_focus_minutes, s.best_day_count,
   k.current_streak, k.longest_streak⟩

/-- One entry of the `ACHIEVEMENTS` class dictionary. -/
structure AchievementDef where
  id : String
  name : String
  description : String
  icon : String
  condition : CombinedStats → Bool

/-- The eight achievement definitions, in dictionary insertion order. -/
def ACHIEVEMENTS : List AchievementDef :=
  [⟨"first_pomodoro", "First Step", "Complete your first Pomodoro", "🍅",
      fun stats => decide (stats.total_completed ≥ 1)⟩,
   ⟨"streak_3", "Consistency", "Complete Pomodoros for 3 consecutive days", "🔥",
      fun stats => decide (stats.current_streak ≥ 3)⟩,
   ⟨"streak_7", "Week Warrior", "Complete Pomodoros for 7 consecutive days", "⚡",
      fun stats => decide (stats.current_streak ≥ 7)⟩,
   ⟨"week_10", "Productive Week", "Complete 10 Pomodoros in a week", "📈",
      fun stats => decide (stats.this_week_count ≥ 10)⟩,
   ⟨"week_20", "Focus Master", "Complete 20 Pomodoros in a week", "🎯",
      fun stats => decide (stats.this_week_count ≥ 20)⟩,
   ⟨"total_50", "Half Century", "Complete 50 total Pomodoros", "⭐",
      fun stats => decide (stats.total_completed ≥ 50)⟩,
   ⟨"total_100", "Centurion", "Complete 100 total Pomodoros", "👑",
      fun stats => decide (stats.total_completed ≥ 100)⟩,
   ⟨"perfect_day", "Perfect Day", "Complete 8 Pomodoros in a single day", "💎",
      fun stats => decide (stats.best_day_count ≥ 8)⟩]

/-- One element of the lists returned by `check_achievements` /
`get_all_achievements`. -/
structure AchievementStatus where
  id : String
  name : String
  description : String
  icon : String
  unlocked : Bool
deriving DecidableEq, Repr

/-- The persisted ledger (`self.data`), restricted to the only field the
engine's operations ever read or write: the `achievements` id list.  The
other persisted JSON fields (`xp`, `level`, `last_completion_date`,
`current_streak`, `longest_streak`) are written once at creation and never
consulted. -/
structure GamificationData where
  achievements : List String
deriving DecidableEq, Repr

/-- The default ledger produced by `_load_data` for a fresh installation. -/
def initialData : GamificationData := ⟨[]⟩

/-- The `for achievement_id, achievement_def in ACHIEVEMENTS.items()` loop of
`check_achievements`; `_save_data` is modelled by the updated ledger being
the one every later step (and the caller) sees. -/
def checkLoop (cs : CombinedStats) :
    List AchievementDef → GamificationData → List AchievementStatus × GamificationData
  | [], st => ([], st)
  | a :: rest, st =>
    if a.condition cs then
      let st' : GamificationData :=
        if st.achievements.contains a.id then st else ⟨st.achievements ++ [a.id]⟩
      (⟨a.id, a.name, a.description, a.icon, true⟩ :: (checkLoop cs rest st').1,
       (checkLoop cs rest st').2)
    else checkLoop cs rest st

def checkAchievements (events : List SessionEvent) (today : Date)
    (st : GamificationData) : List AchievementStatus × GamificationData :=
  checkLoop (combinedStats events today) ACHIEVEMENTS st

/-- Python `get_all_achievements`: every definition with `unlocked` = membership of
its id in the persisted ledger (the stats/streaks it computes are unused for
that flag); no mutation. -/
def getAllAchievements (events : List SessionEvent) (today : Date)
    (st : GamificationData) : List AchievementStatus × GamificationData :=
  let _ := combinedStats events today
  (ACHIEVEMENTS.map (fun a =>
    ⟨a.id, a.name, a.description, a.icon, st.achievements.contains a.id⟩), st)

/-! ## Facade (`get_gamification_data`, `award_xp`) -/

structure Snapshot where
  xp : XpLevel
  streaks : Streaks
  stats : Stats
  achievements : List AchievementStatus
deriving DecidableEq, Repr

def getGamificationData (events : List SessionEvent) (today : Date)
    (st : GamificationData) : Snapshot × GamificationData :=
  let xp := calculateXpAndLevel events
  let streaks := calculateStreaks events today
  let stats := calculateStatistics events today
  let (ach, st') := getAllAchievements events today st
  (⟨xp, streaks, stats, ach⟩, st')

/-- The dictionary returned by `award_xp`: the early return for a
non-completed action carries only the keys `xp_gained` and `leveled_up`
(constructor `brief`); the main path carries all five keys (constructor
`full`). -/
inductive AwardResult where
  | brief (xp_gained : Nat) (leveled_up : Bool)
  | full (xp_gained : Nat) (total_xp : Nat) (level : Nat) (leveled_up : Bool)
      (new_achievements : List AchievementStatus)
deriving DecidableEq, Repr

/-- The `xp_gained` key, present in both shapes of the result. -/
def AwardResult.xpGained : AwardResult → Nat
  | .brief g _ => g
  | .full g _ _ _ _ => g

/-- Whether the result carries all five keys
`xp_gained, total_xp, level, leveled_up, new_achievements`. -/
def AwardResult.hasAllFiveKeys : AwardResult → Bool
  | .brief _ _ => false
  | .full _ _ _ _ _ => true

/-- The `xp_gained` computation of `award_xp`: `0`, overridden to 25 for
`work` and to 5 for `short_break`/`long_break`. -/
def awardGain (session_type : String) : Nat :=
  if session_type == "work" then XP_WORK_COMPLETED
  else if session_type == "short_break" || session_type == "long_break" then
    XP_BREAK_COMPLETED
  else 0

def awardXp (events : List SessionEvent) (today : Date) (st : GamificationData)
    (session_type action : String) : AwardResult × GamificationData :=
  if action != "completed" then (.brief 0 false, st)
  else
    let xp_gained : Nat := awardGain session_type
    let current := calculateXpAndLevel events
    let previous_xp : Int := (current.total_xp : Int) - xp_gained
    let previous_level := levelFromXp previous_xp
    let leveled_up := decide (current.level > previous_level)
    let (newAch, st') := checkAchievements events today st
    (.full xp_gained current.total_xp current.level leveled_up newAch, st')

/-- Ledger states reachable from a fresh installation through the engine's
operations (`get_gamification_data` and `get_all_achievements` return the
ledger unchanged, so only the two mutating operations matter). -/
inductive Reachable : GamificationData → Prop where
  | init : Reachable initialData
  | check (st : GamificationData) (events : List SessionEvent) (today : Date) :
      Reachable st → Reachable (checkAchievements events today st).2
  | award (st : GamificationData) (events : List SessionEvent) (today : Date)
      (ty ac : String) :
      Reachable st → Reachable (awardXp events today st ty ac).2

/-! ## Helper lemmas -/

set_option maxHeartbeats 2000000 in
/-- Unfolding the threshold loop gives a closed conditional form. -/
theorem levelFromXp_closed (xp : Int) :
    levelFromXp xp =
      if 4700 ≤ xp then 11 else if 3800 ≤ xp then 10 else if 3000 ≤ xp then 9
      else if 2300 ≤ xp then 8 else if 1700 ≤ xp then 7 else if 1200 ≤ xp then 6
      else if 800 ≤ xp then 5 else if 500 ≤ xp then 4 else if 250 ≤ xp then 3
      else if 100 ≤ xp then 2 else 1 := by
  simp only [levelFromXp, LEVEL_THRESHOLDS, levelLoop, ge_iff_le]
  split_ifs <;> omega

theorem levelFromXp_pos (xp : Int) : 1 ≤ levelFromXp xp := by
  rw [levelFromXp_closed]; split_ifs <;> omega

theorem levelFromXp_le_11 (xp : Int) : levelFromXp xp ≤ 11 := by
  rw [levelFromXp_closed]; split_ifs <;> omega

/-- The threshold table lookup, as a closed conditional on the index. -/
theorem thresholds_getD (i : Nat) :
    LEVEL_THRESHOLDS.getD i 0 =
      if i = 0 then 0 else if i = 1 then 100 else if i = 2 then 250
      else if i = 3 then 500 else if i = 4 then 800 else if i = 5 then 1200
      else if i = 6 then 1700 else if i = 7 then 2300 else if i = 8 then 3000
      else if i = 9 then 3800 else if i = 10 then 4700 else 0 := by
  match i with
  | 0 => rfl
  | 1 => rfl
  | 2 => rfl
  | 3 => rfl
  | 4 => rfl
  | 5 => rfl
  | 6 => rfl
  | 7 => rfl
  | 8 => rfl
  | 9 => rfl
  | 10 => rfl
  | n + 11 => rfl

theorem xpForNext_pos (l : Nat) (h1 : 1 ≤ l) (h2 : l ≤ 11) :
    0 < nextThreshold l - currentThreshold l := by
  interval_cases l <;> decide

/-- The list returned by the achievement loop is exactly the records of the
definitions whose condition currently holds, in table order. -/
theorem checkLoop_fst (cs : CombinedStats) :
    ∀ (defs : List AchievementDef) (st : GamificationData),
    (checkLoop cs defs st).1 =
      (defs.filter (fun a => a.condition cs)).map
        (fun a => ⟨a.id, a.name, a.description, a.icon, true⟩) := by
  intro defs
  induction defs with
  | nil => intro st; rfl
  | cons a rest ih =>
    intro st
    by_cases h : a.condition cs = true <;>
      simp [checkLoop, List.filter_cons, h, ih]

/-- The achievement loop only appends to the ledger, and appends only ids of
definitions whose condition currently holds. -/
theorem checkLoop_snd (cs : CombinedStats) :
    ∀ (defs : List AchievementDef) (st : GamificationData),
    ∃ extra : List String,
      (checkLoop cs defs st).2.achievements = st.achievements ++ extra ∧
      ∀ x ∈ extra, ∃ a ∈ defs, a.id = x ∧ a.condition cs = true := by
  intro defs
  induction defs with
  | nil => intro st; exact ⟨[], by simp [checkLoop], by simp⟩
  | cons a rest ih =>
    intro st
    by_cases h : a.condition cs = true
    · by_cases hc : a.id ∈ st.achievements
      · obtain ⟨extra, he, hm⟩ := ih st
        refine ⟨extra, by simp [checkLoop, h, hc, he], ?_⟩
        intro x hx
        obtain ⟨b, hb, hbid, hbc⟩ := hm x hx
        exact ⟨b, List.mem_cons_of_mem _ hb, hbid, hbc⟩
      · obtain ⟨extra, he, hm⟩ := ih ⟨st.achievements ++ [a.id]⟩
        refine ⟨a.id :: extra, by simp [checkLoop, h, hc, he], ?_⟩
        intro x hx
        rcases List.mem_cons.mp hx with rfl | hx'
        · exact ⟨a, List.mem_cons_self a rest, rfl, h⟩
        · obtain ⟨b, hb, hbid, hbc⟩ := hm x hx'
          exact ⟨b, List.mem_cons_of_mem _ hb, hbid, hbc⟩
    · obtain ⟨extra, he, hm⟩ := ih st
      refine ⟨extra, by simp [checkLoop, h, he], ?_⟩
      intro x hx
      obtain ⟨b, hb, hbid, hbc⟩ := hm x hx
      exact ⟨b, List.mem_cons_of_mem _ hb, hbid, hbc⟩

/-- Membership in the ledger after the achievement loop: the old ids plus
every id whose condition currently holds. -/
theorem checkLoop_snd_mem (cs : CombinedStats) :
    ∀ (defs : List AchievementDef) (st : GamificationData) (x : String),
    x ∈ (checkLoop cs defs st).2.achievements ↔
      x ∈ st.achievements ∨ ∃ a ∈ defs, a.id = x ∧ a.condition cs = true := by
  intro defs
  induction defs with
  | nil => intro st x; simp [checkLoop]
  | cons a rest ih =>
    intro st x
    by_cases h : a.condition cs = true
    · by_cases hc : a.id ∈ st.achievements
      · have hL : (checkLoop cs (a :: rest) st).2 = (checkLoop cs rest st).2 := by
          simp [checkLoop, h, hc]
        rw [hL, ih]
        constructor
        · rintro (hx | ⟨b, hb, hbid, hbc⟩)
          · exact Or.inl hx
          · exact Or.inr ⟨b, List.mem_cons_of_mem _ hb, hbid, hbc⟩
        · rintro (hx | ⟨b, hb, hbid, hbc⟩)
          · exact Or.inl hx
          · rcases List.mem_cons.mp hb with rfl | hb'
            · exact Or.inl (hbid ▸ hc)
            · exact Or.inr ⟨b, hb', hbid, hbc⟩
      · have hL : (checkLoop cs (a :: rest) st).2 =
            (checkLoop cs rest ⟨st.achievements ++ [a.id]⟩).2 := by
          simp [checkLoop, h, hc]
        rw [hL, ih]
        constructor
        · rintro (hx | ⟨b, hb, hbid, hbc⟩)
          · rcases List.mem_append.mp hx with hx' | hx'
            · exact Or.inl hx'
            · have hxa : x = a.id := by simpa using hx'
              exact Or.inr ⟨a, List.mem_cons_self a rest, hxa.symm, h⟩
          · exact Or.inr ⟨b, List.mem_cons_of_mem _ hb, hbid, hbc⟩
        · rintro (hx | ⟨b, hb, hbid, hbc⟩)
          · exact Or.inl (List.mem_append.mpr (Or.inl hx))
          · rcases List.mem_cons.mp hb with rfl | hb'
            · exact Or.inl (List.mem_append.mpr (Or.inr (by simp [hbid])))
            · exact Or.inr ⟨b, hb', hbid, hbc⟩
    · have hL : (checkLoop cs (a :: rest) st).2 = (checkLoop cs rest st).2 := by
        simp [checkLoop, h]
      rw [hL, ih]
      constructor
      · rintro (hx | ⟨b, hb, hbid, hbc⟩)
        · exact Or.inl hx
        · exact Or.inr ⟨b, List.mem_cons_of_mem _ hb, hbid, hbc⟩
      · rintro (hx | ⟨b, hb, hbid, hbc⟩)
        · exact Or.inl hx
        · rcases List.mem_cons.mp hb with rfl | hb'
          · exact absurd hbc h
          · exact Or.inr ⟨b, hb', hbid, hbc⟩

/-- Operation `award_xp` either returns the ledger untouched (non-completed action) or
returns whatever `check_achievements` produced. -/
theorem awardXp_snd (events : List SessionEvent) (today : Date)
    (st : GamificationData) (ty ac : String) :
    (awardXp events today st ty ac).2 = st ∨
      (awardXp events today st ty ac).2 = (checkAchievements events today st).2 := by
  by_cases h : (ac != "completed") = true
  · exact Or.inl (by simp [awardXp, h])
  · exact Or.inr (by simp [awardXp, h])

/-! ## Claim theorems -/

set_option maxHeartbeats 3200000 in
/-- Claim C4: for every total_xp ≥ 0, the level is the highest 1-based index
`i` with `total_xp ≥ thresholds[i-1]` and is never below 1; at level 11 the
next-level threshold is synthesized as the current one plus 1000 so
`xp_for_next_level` is never 0; `total_xp = 100 ⇒ level 2`,
`99 ⇒ level 1`, `0 ⇒ level 1` with `xp_in_level = 0`. -/
theorem claim_C4 (xp : Nat) :
    (1 ≤ levelFromXp xp ∧
     (∀ i : Nat, 1 ≤ i → i ≤ LEVEL_THRESHOLDS.length →
        (i ≤ levelFromXp xp ↔ LEVEL_THRESHOLDS.getD (i - 1) 0 ≤ (xp : Int)))) ∧
    0 < (xpRecordFromTotal xp).xp_for_next_level ∧
    ((xpRecordFromTotal xp).level = 11 →
      (xpRecordFromTotal xp).xp_for_next_level = 1000) ∧
    (xpRecordFromTotal 100).level = 2 ∧ (xpRecordFromTotal 99).level = 1 ∧
    (xpRecordFromTotal 0).level = 1 ∧ (xpRecordFromTotal 0).xp_in_level = 0 := by
  refine ⟨⟨levelFromXp_pos _, ?_⟩, ?_, ?_, by decide, by decide, by decide, by decide⟩
  · intro i h1 h2
    have h2' : i ≤ 11 := h2
    have h0 : (0 : Int) ≤ (xp : Int) := Int.ofNat_nonneg xp
    rw [thresholds_getD]
    interval_cases i <;>
      · norm_num
        rw [levelFromXp_closed]
        split_ifs <;> omega
  · exact xpForNext_pos _ (levelFromXp_pos _) (levelFromXp_le_11 _)
  · intro h
    have h' : levelFromXp ((xp : Nat) : Int) = 11 := h
    show nextThreshold (levelFromXp ((xp : Nat) : Int)) -
      currentThreshold (levelFromXp ((xp : Nat) : Int)) = 1000
    rw [h']
    decide

/-- Witness for C4 at total_xp = 250 (level 3). -/
theorem claim_C4_witness :
    1 ≤ levelFromXp ((250 : Nat) : Int) ∧ 3 ≤ levelFromXp ((250 : Nat) : Int) :=
  ⟨(claim_C4 250).1.1,
   ((claim_C4 250).1.2 3 (by decide) (by decide)).mpr (by decide)⟩

/-- Claim C5: the reader keeps well-formed lines in file order and silently
drops empty/whitespace-only lines, lines without exactly 4 pipe-delimited
fields, and lines whose timestamp does not parse; a missing file gives the
empty sequence; valid lines before and after a malformed one still parse. -/
theorem claim_C5 :
    parseLogFile none = [] ∧
    (∀ l1 l2 : List String, ∀ b : String, parseLogLine b = none →
      parseLogFile (some (l1 ++ b :: l2)) =
        parseLogFile (some l1) ++ parseLogFile (some l2)) ∧
    (∀ lines : List String, parseLogFile (some lines) = lines.filterMap parseLogLine) ∧
    (∀ raw : String, trimChars raw.toList = [] → parseLogLine raw = none) ∧
    (∀ raw : String, (splitPipeAux (trimChars raw.toList) []).length ≠ 4 →
      parseLogLine raw = none) ∧
    (∀ raw : String, ∀ t ty ac num : String,
      splitPipeAux (trimChars raw.toList) [] = [t, ty, ac, num] →
      strptimeYmdHms t.toList = none → parseLogLine raw = none) ∧
    parseLogFile (some ["2024-01-01 10:00:00 | work | completed | session_1",
                        "corrupted json line",
                        "2024-01-02 11:30:00 | short_break | completed | session_2"]) =
      [⟨⟨⟨2024, 1, 1⟩, 10, 0, 0⟩, "work", "completed", "session_1"⟩,
       ⟨⟨⟨2024, 1, 2⟩, 11, 30, 0⟩, "short_break", "completed", "session_2"⟩] := by
  refine ⟨rfl, ?_, fun _ => rfl, ?_, ?_, ?_, by decide⟩
  · intro l1 l2 b hb
    simp [parseLogFile, List.filterMap_append, List.filterMap_cons, hb]
  · intro raw h
    simp only [parseLogLine, h]
    rfl
  · intro raw h
    simp only [parseLogLine]
    split
    · rfl
    · split
      · rename_i t ty ac num heq
        refine absurd ?_ h
        show (splitPipeAux (trimChars raw.toList) []).length = 4
        rw [heq]
        rfl
      · rfl
  · intro raw t ty ac num hsp hts
    simp only [parseLogLine]
    split
    · rfl
    · have hts' : strptimeYmdHms t.data = none := hts
      rw [hsp]
      simp [hts']

/-- Witness for C5: a malformed middle line is dropped while the valid lines
around it still parse. -/
theorem claim_C5_witness :
    parseLogFile (some (["2024-01-01 10:00:00 | work | completed | session_1"] ++
        "corrupted json line" :: ["2024-01-02 11:30:00 | work | completed | session_2"])) =
      parseLogFile (some ["2024-01-01 10:00:00 | work | completed | session_1"]) ++
      parseLogFile (some ["2024-01-02 11:30:00 | work | completed | session_2"]) :=
  claim_C5.2.1 _ _ "corrupted json line" (by decide)

/-- Claim C9: `get_gamification_data` (and `get_all_achievements`, which it
composes) leaves the persisted ledger unchanged, and two consecutive
`get_all_achievements` calls with no intervening events return identical
lists. -/
theorem claim_C9 (events : List SessionEvent) (today : Date) (st : GamificationData) :
    (getGamificationData events today st).2 = st ∧
    (getAllAchievements events today st).2 = st ∧
    (getAllAchievements events today ((getAllAchievements events today st).2)).1 =
      (getAllAchievements events today st).1 :=
  ⟨rfl, rfl, rfl⟩

/-- Counterexample to C1 as stated: for the pair `("work", "skipped")` the
result of `award_xp` is the early-return dictionary with only the two keys
`xp_gained` and `leveled_up` — not a record with all five keys. -/
theorem claim_C1_cex :
    (awardXp [] ⟨2024, 1, 1⟩ initialData "work" "skipped").1 =
      AwardResult.brief 0 false ∧
    (awardXp [] ⟨2024, 1, 1⟩ initialData "work" "skipped").1.hasAllFiveKeys = false := by
  decide

/-- Claim C1 (amended): for a completed action `award_xp` returns all five
keys, with `xp_gained` 25 for work / 5 for either break (0 otherwise),
`total_xp` and `level` recomputed from the full log, and `leveled_up` true
exactly when that level exceeds the level recomputed from `total_xp` minus
the event's XP gain; for a non-completed action it returns only
`{xp_gained: 0, leveled_up: False}` and leaves the ledger unchanged. -/
theorem claim_C1_amended (events : List SessionEvent) (today : Date)
    (st : GamificationData) (ty ac : String) :
    (ac ≠ "completed" →
      (awardXp events today st ty ac).1 = AwardResult.brief 0 false ∧
      (awardXp events today st ty ac).2 = st) ∧
    (ac = "completed" →
      (awardXp events today st ty ac).1 =
        AwardResult.full (awardGain ty) (totalXp events)
          (levelFromXp (totalXp events))
          (decide (levelFromXp (totalXp events) >
            levelFromXp ((totalXp events : Int) - awardGain ty)))
          (checkAchievements events today st).1 ∧
      (ty = "work" → awardGain ty = 25) ∧
      (ty = "short_break" ∨ ty = "long_break" → awardGain ty = 5) ∧
      (ty ≠ "work" → ty ≠ "short_break" → ty ≠ "long_break" → awardGain ty = 0)) := by
  constructor
  · intro h
    have hb : (ac != "completed") = true := by
      simpa using h
    simp [awardXp, hb]
  · intro h
    subst h
    refine ⟨rfl, ?_, ?_, ?_⟩
    · intro h; subst h; rfl
    · rintro (h | h) <;> subst h <;> rfl
    · intro h1 h2 h3
      simp [awardGain, h1, h2, h3]

/-- Witness for C1 (amended), for `("work", "completed")` on an empty log
and for `("work", "skipped")`. -/
theorem claim_C1_amended_witness :
    (awardXp [] ⟨2024, 1, 1⟩ initialData "work" "completed").1 =
      AwardResult.full (awardGain "work") (totalXp [])
        (levelFromXp (totalXp []))
        (decide (levelFromXp (totalXp []) >
          levelFromXp ((totalXp [] : Int) - awardGain "work")))
        (checkAchievements [] ⟨2024, 1, 1⟩ initialData).1 ∧
    (awardXp [] ⟨2024, 1, 1⟩ initialData "work" "skipped").1 =
      AwardResult.brief 0 false :=
  ⟨((claim_C1_amended [] ⟨2024, 1, 1⟩ initialData "work" "completed").2 rfl).1,
   ((claim_C1_amended [] ⟨2024, 1, 1⟩ initialData "work" "skipped").1 (by decide)).1⟩

/-- Claim C10: a completed event of any non-`work` session type — including
types outside the enum — contributes 5 XP to the full recomputation, while
`award_xp` reports `xp_gained = 0` for an unrecognized type, so the two
disagree on such an event. -/
theorem claim_C10 (events : List SessionEvent) (today : Date)
    (st : GamificationData) (ts : Timestamp) (num ty : String)
    (hty : ty ≠ "work") :
    totalXp (events ++ [⟨ts, ty, "completed", num⟩]) = totalXp events + 5 ∧
    (ty ≠ "short_break" → ty ≠ "long_break" →
      (awardXp (events ++ [⟨ts, ty, "completed", num⟩]) today st ty
          "completed").1.xpGained = 0) ∧
    (calculateXpAndLevel
        [⟨⟨⟨2024, 1, 5⟩, 9, 0, 0⟩, "meditation", "completed", "s1"⟩]).total_xp = 5 ∧
    (awardXp [⟨⟨⟨2024, 1, 5⟩, 9, 0, 0⟩, "meditation", "completed", "s1"⟩]
        ⟨2024, 1, 5⟩ initialData "meditation" "completed").1.xpGained = 0 := by
  refine ⟨?_, ?_, by decide, by decide⟩
  · simp [totalXp, List.foldl_append, XP_BREAK_COMPLETED, hty]
  · intro h1 h2
    simp [awardXp, awardGain, AwardResult.xpGained, hty, h1, h2]

/-- Witness for C10 with the unrecognized session type `"meditation"`. -/
theorem claim_C10_witness :
    totalXp ([] ++ [⟨⟨⟨2024, 1, 5⟩, 9, 0, 0⟩, "meditation", "completed", "s1"⟩]) =
      totalXp [] + 5 ∧
    (awardXp ([] ++ [⟨⟨⟨2024, 1, 5⟩, 9, 0, 0⟩, "meditation", "completed", "s1"⟩])
        ⟨2024, 1, 5⟩ initialData "meditation" "completed").1.xpGained = 0 := by
  have h := claim_C10 [] ⟨2024, 1, 5⟩ initialData ⟨⟨2024, 1, 5⟩, 9, 0, 0⟩ "s1"
    "meditation" (by decide)
  exact ⟨h.1, h.2.1 (by decide) (by decide)⟩

/-- Claim C2: `check_achievements` returns exactly the achievements whose
predicate is currently true (in table order, not only newly unlocked ones),
and afterwards the persisted ledger holds an id iff it was already there or
its predicate currently holds (newly-true ids are added and persisted). -/
theorem claim_C2 (events : List SessionEvent) (today : Date) (st : GamificationData) :
    ((checkAchievements events today st).1 =
      (ACHIEVEMENTS.filter (fun a => a.condition (combinedStats events today))).map
        (fun a => ⟨a.id, a.name, a.description, a.icon, true⟩)) ∧
    (∀ a ∈ ACHIEVEMENTS, (a.condition (combinedStats events today) = true ↔
        a.id ∈ (checkAchievements events today st).1.map (fun r => r.id))) ∧
    (∀ x : String, x ∈ (checkAchievements events today st).2.achievements ↔
      x ∈ st.achievements ∨
        ∃ a ∈ ACHIEVEMENTS, a.id = x ∧ a.condition (combinedStats events today) = true) := by
  refine ⟨checkLoop_fst _ _ _, ?_, fun x => checkLoop_snd_mem _ _ _ _⟩
  intro a ha
  have hnd : (ACHIEVEMENTS.map (fun a => a.id)).Nodup := by decide
  have hfst : (checkAchievements events today st).1 =
      (ACHIEVEMENTS.filter (fun a => a.condition (combinedStats events today))).map
        (fun a => ⟨a.id, a.name, a.description, a.icon, true⟩) := checkLoop_fst _ _ _
  constructor
  · intro hcond
    rw [hfst]
    exact List.mem_map.mpr ⟨⟨a.id, a.name, a.description, a.icon, true⟩,
      List.mem_map.mpr ⟨a, List.mem_filter.mpr ⟨ha, hcond⟩, rfl⟩, rfl⟩
  · intro hmem
    rw [hfst] at hmem
    rcases List.mem_map.mp hmem with ⟨r, hr, hrid⟩
    rcases List.mem_map.mp hr with ⟨b, hb, rfl⟩
    have hbf := List.mem_filter.mp hb
    have hba : b = a := List.inj_on_of_nodup_map hnd hbf.1 ha hrid
    exact hba ▸ hbf.2

/-- Witness for C2 at the first achievement (`first_pomodoro`) on a log with
one completed work session. -/
theorem claim_C2_witness :
    (ACHIEVEMENTS.get ⟨0, by decide⟩).condition
        (combinedStats
          [⟨⟨⟨2024, 1, 2⟩, 9, 0, 0⟩, "work", "completed", "s1"⟩] ⟨2024, 1, 2⟩) = true ↔
      (ACHIEVEMENTS.get ⟨0, by decide⟩).id ∈
        (checkAchievements [⟨⟨⟨2024, 1, 2⟩, 9, 0, 0⟩, "work", "completed", "s1"⟩]
            ⟨2024, 1, 2⟩ initialData).1.map (fun r => r.id) :=
  (claim_C2 _ _ _).2.1 _ (List.get_mem ACHIEVEMENTS 0 (by decide))

/-- Claim C8: on every reachable ledger the persisted achievement set stays
within the 8 defined ids; no engine operation removes an id;
`get_all_achievements` reports `unlocked` as bare ledger membership, so a
persisted id is reported unlocked whatever the current event history is. -/
theorem claim_C8 (st : GamificationData) (h : Reachable st) :
    (∀ x ∈ st.achievements, x ∈ ACHIEVEMENTS.map (fun a => a.id)) ∧
    (∀ (events : List SessionEvent) (today : Date), ∃ extra,
      (checkAchievements events today st).2.achievements = st.achievements ++ extra) ∧
    (∀ (events : List SessionEvent) (today : Date) (ty ac : String), ∃ extra,
      (awardXp events today st ty ac).2.achievements = st.achievements ++ extra) ∧
    (∀ (events : List SessionEvent) (today : Date),
      (getAllAchievements events today st).1 = ACHIEVEMENTS.map (fun a =>
        ⟨a.id, a.name, a.description, a.icon, st.achievements.contains a.id⟩)) ∧
    (∀ (events : List SessionEvent) (today : Date) (a : AchievementDef),
      a ∈ ACHIEVEMENTS → a.id ∈ st.achievements →
      (⟨a.id, a.name, a.description, a.icon, true⟩ : AchievementStatus) ∈
        (getAllAchievements events today st).1) := by
  refine ⟨?_, ?_, ?_, fun _ _ => rfl, ?_⟩
  · -- ledger ⊆ defined ids, by induction on reachability
    induction h with
    | init => intro x hx; simp [initialData] at hx
    | check st0 events today _ ih =>
      intro x hx
      rcases (checkLoop_snd_mem _ _ _ _).mp hx with hx' | ⟨a, ha, rfl, _⟩
      · exact ih x hx'
      · exact List.mem_map.mpr ⟨a, ha, rfl⟩
    | award st0 events today ty ac _ ih =>
      intro x hx
      rcases awardXp_snd events today st0 ty ac with heq | heq
      · rw [heq] at hx; exact ih x hx
      · rw [heq] at hx
        rcases (checkLoop_snd_mem _ _ _ _).mp hx with hx' | ⟨a, ha, rfl, _⟩
        · exact ih x hx'
        · exact List.mem_map.mpr ⟨a, ha, rfl⟩
  · intro events today
    obtain ⟨extra, he, _⟩ := checkLoop_snd (combinedStats events today) ACHIEVEMENTS st
    exact ⟨extra, he⟩
  · intro events today ty ac
    rcases awardXp_snd events today st ty ac with heq | heq
    · exact ⟨[], by simp [heq]⟩
    · obtain ⟨extra, he, _⟩ := checkLoop_snd (combinedStats events today) ACHIEVEMENTS st
      exact ⟨extra, by rw [heq]; exact he⟩
  · intro events today a ha hmem
    have hcon : st.achievements.contains a.id = true := by simpa using hmem
    exact List.mem_map.mpr ⟨a, ha, by rw [hcon]⟩

/-- Witness for C8 at the freshly-initialized ledger. -/
theorem claim_C8_witness :
    (getAllAchievements [] ⟨2024, 1, 1⟩ initialData).1 = ACHIEVEMENTS.map (fun a =>
      ⟨a.id, a.name, a.description, a.icon, initialData.achievements.contains a.id⟩) :=
  (claim_C8 initialData Reachable.init).2.2.2.1 [] ⟨2024, 1, 1⟩

theorem mem_completedWorkDays (events : List SessionEvent) (d : Int) :
    d ∈ completedWorkDays events ↔ dayHasCompletedWork events d = true := by
  simp [completedWorkDays, dayHasCompletedWork, List.mem_dedup, List.mem_map,
    List.mem_filter, List.any_eq_true]
  constructor
  · rintro ⟨e, ⟨he, hw⟩, hd⟩
    exact ⟨e, he, hw, hd⟩
  · rintro ⟨e, he, hw, hd⟩
    exact ⟨e, ⟨he, hw⟩, hd⟩

theorem countBack_mem (dates : List Int) :
    ∀ (fuel : Nat) (d : Int) (k : Nat), k < countBack dates d fuel → (d - k) ∈ dates := by
  intro fuel
  induction fuel with
  | zero => intro d k hk; simp [countBack] at hk
  | succ n ih =>
    intro d k hk
    rw [countBack] at hk
    by_cases h : dates.contains d = true
    · rw [if_pos h] at hk
      match k with
      | 0 => simpa using h
      | k + 1 =>
        have hk' : k < countBack dates (d - 1) n := by omega
        have hmem := ih (d - 1) k hk'
        have heq : d - 1 - (k : Int) = d - ((k : Nat) + 1 : Nat) := by push_cast; ring
        rwa [heq] at hmem
    · rw [if_neg h] at hk; omega

theorem countBack_stop (dates : List Int) :
    ∀ (fuel : Nat) (d : Int), countBack dates d fuel < fuel →
      (d - (countBack dates d fuel : Nat)) ∉ dates := by
  intro fuel
  induction fuel with
  | zero => intro d h; omega
  | succ n ih =>
    intro d h
    by_cases hc : dates.contains d = true
    · rw [countBack, if_pos hc] at h ⊢
      have h' : countBack dates (d - 1) n < n := by omega
      have hstop := ih (d - 1) h'
      have heq : d - ((countBack dates (d - 1) n + 1 : Nat) : Int) =
          d - 1 - (countBack dates (d - 1) n : Nat) := by push_cast; ring
      rwa [heq]
    · rw [countBack, if_neg hc]
      simpa using hc

theorem countBack_le (dates : List Int) (d : Int) (fuel : Nat) :
    countBack dates d fuel ≤ dates.length := by
  by_contra hlt
  push_neg at hlt
  have hmem : ∀ k : Nat, k < countBack dates d fuel → (d - k) ∈ dates :=
    fun k hk => countBack_mem dates fuel d k hk
  have hsub : ((List.range (countBack dates d fuel)).map
      (fun k : Nat => d - (k : Int))) ⊆ dates := by
    intro x hx
    rcases List.mem_map.mp hx with ⟨k, hk, rfl⟩
    exact hmem k (List.mem_range.mp hk)
  have hnodup : ((List.range (countBack dates d fuel)).map
      (fun k : Nat => d - (k : Int))).Nodup := by
    refine List.Nodup.map ?_ (List.nodup_range _)
    intro a b hab
    simp only at hab
    omega
  have hle := (List.Nodup.subperm hnodup hsub).length_le
  simp at hle
  omega

/-- The current-streak branch structure of `calculate_streaks`, as one
conditional expression. -/
theorem currentStreak_cases (events : List SessionEvent) (today : Date) :
    (calculateStreaks events today).current_streak =
      if completedWorkDays events = [] then 0
      else if (completedWorkDays events).contains today.toDays ||
              (completedWorkDays events).contains (today.toDays - 1) then
        countBack (completedWorkDays events)
          (if (completedWorkDays events).contains today.toDays then today.toDays
           else today.toDays - 1)
          ((completedWorkDays events).length + 1)
      else 0 := by
  by_cases hev : events.isEmpty
  · have hnil : completedWorkDays events = [] := by
      cases events with
      | nil => rfl
      | cons e rest => simp at hev
    simp [calculateStreaks, hev, hnil]
  · by_cases hd : completedWorkDays events = []
    · simp [calculateStreaks, hev, hd]
    · simp only [calculateStreaks, hev, Bool.false_eq_true, if_false, if_neg hd]
      have hde : (completedWorkDays events).isEmpty = false := by
        simpa [List.isEmpty_iff] using hd
      simp [hde]

/-- Claim C3: the current streak is 0 when no date has a completed work
session and when neither today nor yesterday has one; otherwise it anchors at
today (else yesterday), counts backward over consecutive present dates and
stops at the first absent date.  Three consecutive days ending today give 3;
an old day, a 3-day gap and today give 1. -/
theorem claim_C3 (events : List SessionEvent) (today : Date) :
    ((∀ d : Int, dayHasCompletedWork events d = false) →
       (calculateStreaks events today).current_streak = 0) ∧
    (dayHasCompletedWork events today.toDays = false →
     dayHasCompletedWork events (today.toDays - 1) = false →
       (calculateStreaks events today).current_streak = 0) ∧
    (dayHasCompletedWork events today.toDays = true →
       (∀ k : Nat, k < (calculateStreaks events today).current_streak →
          dayHasCompletedWork events (today.toDays - k) = true) ∧
       dayHasCompletedWork events
         (today.toDays - ((calculateStreaks events today).current_streak : Nat)) = false) ∧
    (dayHasCompletedWork events today.toDays = false →
     dayHasCompletedWork events (today.toDays - 1) = true →
       (∀ k : Nat, k < (calculateStreaks events today).current_streak →
          dayHasCompletedWork events (today.toDays - 1 - k) = true) ∧
       dayHasCompletedWork events
         (today.toDays - 1 - ((calculateStreaks events today).current_streak : Nat)) = false) ∧
    (calculateStreaks
        [⟨⟨⟨2024, 3, 18⟩, 9, 0, 0⟩, "work", "completed", "s1"⟩,
         ⟨⟨⟨2024, 3, 19⟩, 9, 0, 0⟩, "work", "completed", "s2"⟩,
         ⟨⟨⟨2024, 3, 20⟩, 9, 0, 0⟩, "work", "completed", "s3"⟩]
        ⟨2024, 3, 20⟩).current_streak = 3 ∧
    (calculateStreaks
        [⟨⟨⟨2024, 3, 16⟩, 9, 0, 0⟩, "work", "completed", "s1"⟩,
         ⟨⟨⟨2024, 3, 20⟩, 9, 0, 0⟩, "work", "completed", "s2"⟩]
        ⟨2024, 3, 20⟩).current_streak = 1 := by
  refine ⟨?_, ?_, ?_, ?_, by decide, by decide⟩
  · intro hall
    have hnil : completedWorkDays events = [] := by
      rw [List.eq_nil_iff_forall_not_mem]
      intro x hx
      rw [mem_completedWorkDays] at hx
      rw [hall x] at hx
      exact absurd hx (by simp)
    rw [currentStreak_cases, if_pos hnil]
  · intro h1 h2
    have hc1 : (completedWorkDays events).contains today.toDays = false := by
      rw [Bool.eq_false_iff]
      intro hc
      have := (mem_completedWorkDays events today.toDays).mp (by simpa using hc)
      rw [h1] at this
      exact absurd this (by simp)
    have hc2 : (completedWorkDays events).contains (today.toDays - 1) = false := by
      rw [Bool.eq_false_iff]
      intro hc
      have := (mem_completedWorkDays events (today.toDays - 1)).mp (by simpa using hc)
      rw [h2] at this
      exact absurd this (by simp)
    rw [currentStreak_cases]
    by_cases hnil : completedWorkDays events = []
    · rw [if_pos hnil]
    · rw [if_neg hnil, hc1, hc2]
      simp
  · intro hT
    have hmemT : today.toDays ∈ completedWorkDays events :=
      (mem_completedWorkDays events today.toDays).mpr hT
    have hnil : completedWorkDays events ≠ [] := by
      intro h; rw [h] at hmemT; exact absurd hmemT (by simp)
    have hcT : (completedWorkDays events).contains today.toDays = true := by
      simpa using hmemT
    have hcur : (calculateStreaks events today).current_streak =
        countBack (completedWorkDays events) today.toDays
          ((completedWorkDays events).length + 1) := by
      rw [currentStreak_cases, if_neg hnil, hcT]
      simp
    rw [hcur]
    constructor
    · intro k hk
      rw [← mem_completedWorkDays]
      exact countBack_mem _ _ _ k hk
    · have hlt : countBack (completedWorkDays events) today.toDays
          ((completedWorkDays events).length + 1) <
          (completedWorkDays events).length + 1 := by
        have := countBack_le (completedWorkDays events) today.toDays
          ((completedWorkDays events).length + 1)
        omega
      have hstop := countBack_stop (completedWorkDays events) _ today.toDays hlt
      rw [Bool.eq_false_iff]
      intro hc
      exact hstop ((mem_completedWorkDays events _).mpr hc)
  · intro hT hY
    have hmemY : today.toDays - 1 ∈ completedWorkDays events :=
      (mem_completedWorkDays events _).mpr hY
    have hnil : completedWorkDays events ≠ [] := by
      intro h; rw [h] at hmemY; exact absurd hmemY (by simp)
    have hcT : (completedWorkDays events).contains today.toDays = false := by
      rw [Bool.eq_false_iff]
      intro hc
      have := (mem_completedWorkDays events today.toDays).mp (by simpa using hc)
      rw [hT] at this
      exact absurd this (by simp)
    have hcY : (completedWorkDays events).contains (today.toDays - 1) = true := by
      simpa using hmemY
    have hcur : (calculateStreaks events today).current_streak =
        countBack (completedWorkDays events) (today.toDays - 1)
          ((completedWorkDays events).length + 1) := by
      rw [currentStreak_cases, if_neg hnil, hcT, hcY]
      simp
    rw [hcur]
    constructor
    · intro k hk
      rw [← mem_completedWorkDays]
      exact countBack_mem _ _ _ k hk
    · have hlt : countBack (completedWorkDays events) (today.toDays - 1)
          ((completedWorkDays events).length + 1) <
          (completedWorkDays events).length + 1 := by
        have := countBack_le (completedWorkDays events) (today.toDays - 1)
          ((completedWorkDays events).length + 1)
        omega
      have hstop := countBack_stop (completedWorkDays events) _ (today.toDays - 1) hlt
      rw [Bool.eq_false_iff]
      intro hc
      exact hstop ((mem_completedWorkDays events _).mpr hc)

/-- Witness for C3: three consecutive completed-work days ending today; the
day before the run has no completed work. -/
theorem claim_C3_witness :
    dayHasCompletedWork
        [⟨⟨⟨2024, 3, 18⟩, 9, 0, 0⟩, "work", "completed", "s1"⟩,
         ⟨⟨⟨2024, 3, 19⟩, 9, 0, 0⟩, "work", "completed", "s2"⟩,
         ⟨⟨⟨2024, 3, 20⟩, 9, 0, 0⟩, "work", "completed", "s3"⟩]
        ((Date.mk 2024 3 20).toDays -
          ((calculateStreaks
              [⟨⟨⟨2024, 3, 18⟩, 9, 0, 0⟩, "work", "completed", "s1"⟩,
               ⟨⟨⟨2024, 3, 19⟩, 9, 0, 0⟩, "work", "completed", "s2"⟩,
               ⟨⟨⟨2024, 3, 20⟩, 9, 0, 0⟩, "work", "completed", "s3"⟩]
              ⟨2024, 3, 20⟩).current_streak : Nat)) = false :=
  ((claim_C3 _ ⟨2024, 3, 20⟩).2.2.1 (by decide)).2

/-- Field-by-field characterization of the statistics counting loop. -/
theorem statsLoop_fields (t w m : Int) :
    ∀ (evs : List SessionEvent) (st : Stats),
    (statsLoop t w m evs st).total_completed =
      st.total_completed + evs.countP (fun e => e.action == "completed") ∧
    (statsLoop t w m evs st).total_skipped =
      st.total_skipped + evs.countP (fun e => !(e.action == "completed")) ∧
    (statsLoop t w m evs st).today_count =
      st.today_count + evs.countP (fun e =>
        e.action == "completed" && e.timestamp.date.toDays == t) ∧
    (statsLoop t w m evs st).this_week_count =
      st.this_week_count + evs.countP (fun e =>
        e.action == "completed" && decide (w ≤ e.timestamp.date.toDays)) ∧
    (statsLoop t w m evs st).this_month_count =
      st.this_month_count + evs.countP (fun e =>
        e.action == "completed" && decide (m ≤ e.timestamp.date.toDays)) ∧
    (statsLoop t w m evs st).total_focus_minutes =
      st.total_focus_minutes + 25 * evs.countP (fun e =>
        e.action == "completed" && e.session_type == "work") ∧
    (statsLoop t w m evs st).best_day_count = st.best_day_count := by
  intro evs
  induction evs with
  | nil => intro st; simp [statsLoop]
  | cons e rest ih =>
    intro st
    by_cases hc : (e.action == "completed") = true
    · have ihs := ih { st with
        total_completed := st.total_completed + 1
        total_focus_minutes :=
          st.total_focus_minutes + (if e.session_type == "work" then 25 else 0)
        today_count := st.today_count +
          (if e.timestamp.date.toDays == t then 1 else 0)
        this_week_count := st.this_week_count +
          (if e.timestamp.date.toDays ≥ w then 1 else 0)
        this_month_count := st.this_month_count +
          (if e.timestamp.date.toDays ≥ m then 1 else 0) }
      obtain ⟨i1, i2, i3, i4, i5, i6, i7⟩ := ihs
      simp only [statsLoop, hc, if_true, ite_true]
      refine ⟨?_, ?_, ?_, ?_, ?_, ?_, ?_⟩ <;>
        simp only [i1, i2, i3, i4, i5, i6, i7] <;>
        (simp_all [List.countP_cons, Nat.mul_add, mul_ite, mul_one, mul_zero, ge_iff_le];
         try omega)
    · have ihs := ih { st with total_skipped := st.total_skipped + 1 }
      obtain ⟨i1, i2, i3, i4, i5, i6, i7⟩ := ihs
      simp only [statsLoop]
      rw [if_neg hc]
      refine ⟨?_, ?_, ?_, ?_, ?_, ?_, ?_⟩ <;>
        simp only [i1, i2, i3, i4, i5, i6, i7] <;>
        (simp_all [List.countP_cons, Nat.mul_add, mul_ite, mul_one, mul_zero, ge_iff_le];
         try omega)

/-- Counterexample to C7 as stated: with today = Wednesday 2024-01-10, a
completed work event dated 2024-01-11 (after today) is counted in both
`this_week_count` and `this_month_count`, although the claim's closed
intervals `[week_start .. today]` / `[month_start .. today]` exclude it. -/
theorem claim_C7_cex :
    (calculateStatistics [⟨⟨⟨2024, 1, 11⟩, 9, 0, 0⟩, "work", "completed", "s1"⟩]
        ⟨2024, 1, 10⟩).this_week_count = 1 ∧
    (calculateStatistics [⟨⟨⟨2024, 1, 11⟩, 9, 0, 0⟩, "work", "completed", "s1"⟩]
        ⟨2024, 1, 10⟩).this_month_count = 1 ∧
    (calculateStatistics [⟨⟨⟨2024, 1, 11⟩, 9, 0, 0⟩, "work", "completed", "s1"⟩]
        ⟨2024, 1, 10⟩).today_count = 0 ∧
    (Date.mk 2024 1 10).toDays < (Date.mk 2024 1 11).toDays := by
  decide

/-- Claim C7 (amended): `today_count` counts the completed events dated
exactly today; `this_week_count` counts the completed events dated on or
after the Monday of the current week and `this_month_count` those dated on
or after day 1 of the current month — in both cases with no upper bound, so
a completed event dated after today is counted in the week and month
tallies (but never in `today_count`). -/
theorem claim_C7_amended (events : List SessionEvent) (today : Date) :
    (calculateStatistics events today).today_count =
      events.countP (fun e => e.action == "completed" &&
        e.timestamp.date.toDays == today.toDays) ∧
    (calculateStatistics events today).this_week_count =
      events.countP (fun e => e.action == "completed" &&
        decide (weekStartDays today ≤ e.timestamp.date.toDays)) ∧
    (calculateStatistics events today).this_month_count =
      events.countP (fun e => e.action == "completed" &&
        decide (monthStartDays today ≤ e.timestamp.date.toDays)) ∧
    (∀ d : Date, d.toDays = weekStartDays today → d.weekday = 0) ∧
    weekStartDays today ≤ today.toDays ∧
    today.toDays - weekStartDays today < 7 ∧
    monthStartDays today = (Date.mk today.year today.month 1).toDays := by
  obtain ⟨h1, h2, h3, h4, h5, h6, h7⟩ :=
    statsLoop_fields today.toDays (weekStartDays today) (monthStartDays today)
      events ⟨0, 0, 0, 0, 0, 0, 0⟩
  have hwd : ∀ n : Int, 0 ≤ (n + 3) % 7 ∧ (n + 3) % 7 < 7 := by
    intro n
    constructor
    · exact Int.emod_nonneg _ (by norm_num)
    · exact Int.emod_lt_of_pos _ (by norm_num)
  refine ⟨by simpa [calculateStatistics] using h3,
          by simpa [calculateStatistics] using h4,
          by simpa [calculateStatistics] using h5, ?_, ?_, ?_, rfl⟩
  · intro d hd
    have : d.toDays = today.toDays - (today.toDays + 3) % 7 := hd
    simp only [Date.weekday, this, weekStartDays]
    omega
  · simp only [weekStartDays, Date.weekday]
    have := hwd today.toDays
    omega
  · simp only [weekStartDays, Date.weekday]
    have := hwd today.toDays
    omega

/-- Witness for C7 (amended): the weekday of the computed week start is
Monday for today = 2024-01-10. -/
theorem claim_C7_amended_witness :
    (Date.mk 2024 1 8).weekday = 0 ∧
    (calculateStatistics [] ⟨2024, 1, 10⟩).today_count = 0 :=
  ⟨(claim_C7_amended [] ⟨2024, 1, 10⟩).2.2.2.1 ⟨2024, 1, 8⟩ (by decide),
   (claim_C7_amended [] ⟨2024, 1, 10⟩).1⟩

theorem longestLoop_eq_max (l : List Int) : ∀ (prev : Int) (longest temp : Nat),
    longestLoop prev longest temp l = max longest (runScan prev temp l) := by
  induction l with
  | nil => intro prev longest temp; simp [longestLoop, runScan]
  | cons d rest ih =>
    intro prev longest temp
    by_cases h : (d - prev == 1) = true
    · simp [longestLoop, runScan, h, ih]
    · simp [longestLoop, runScan, h, ih, Nat.max_assoc]

/-- Lower bound: the scan's value is witnessed by an actual consecutive run
in `S` (runs are indexed from their last element downward). -/
theorem runScan_lower (S : List Int) :
    ∀ (l : List Int) (prev : Int) (temp : Nat),
    (∀ x ∈ l, x ∈ S) →
    (∀ k : Nat, k < temp → (prev - k) ∈ S) →
    ∃ e : Int, ∀ k : Nat, k < runScan prev temp l → (e - k) ∈ S := by
  intro l
  induction l with
  | nil =>
    intro prev temp _ hrun
    exact ⟨prev, by simpa [runScan] using hrun⟩
  | cons d rest ih =>
    intro prev temp hl hrun
    by_cases h : (d - prev == 1) = true
    · have hd1 : d = prev + 1 := by
        have h' : d - prev = 1 := by simpa using h
        omega
      rw [runScan, if_pos h]
      apply ih d (temp + 1) (fun x hx => hl x (List.mem_cons_of_mem _ hx))
      intro k hk
      match k with
      | 0 => simpa using hl d (List.mem_cons_self _ _)
      | k + 1 =>
        have hmem : prev - k ∈ S := hrun k (by omega)
        have heq : d - ((k + 1 : Nat) : Int) = prev - k := by push_cast; omega
        rwa [heq]
    · rw [runScan, if_neg h]
      rcases Nat.le_total (runScan d 1 rest) temp with hle | hle
      · refine ⟨prev, fun k hk => hrun k ?_⟩
        rw [Nat.max_eq_left hle] at hk
        exact hk
      · have hrun1 : ∀ k : Nat, k < 1 → (d - (k : Int)) ∈ S := by
          intro k hk
          have hk0 : k = 0 := by omega
          subst hk0
          simpa using hl d (List.mem_cons_self _ _)
        obtain ⟨e, he⟩ := ih d 1 (fun x hx => hl x (List.mem_cons_of_mem _ hx)) hrun1
        refine ⟨e, fun k hk => he k ?_⟩
        rw [Nat.max_eq_right hle] at hk
        exact hk

/-- A run of `S` ending strictly inside the current left-maximal run ending
at `prev` has length at most `temp`. -/
theorem run_in_current (S : List Int) (prev : Int) (temp : Nat)
    (hmax : (prev - (temp : Int)) ∉ S) (e : Int) (n : Nat) (_hn : 0 < n)
    (hrun : ∀ k : Nat, k < n → (e - k) ∈ S)
    (hlow : prev - temp < e) (hhigh : e ≤ prev) : n ≤ temp := by
  by_contra hgt
  push_neg at hgt
  have hk0e : (((temp : Int) - (prev - e)).toNat : Int) = (temp : Int) - (prev - e) :=
    Int.toNat_of_nonneg (by omega)
  have hk0n : ((temp : Int) - (prev - e)).toNat < n := by omega
  have hmem := hrun _ hk0n
  have heq : e - ((((temp : Int) - (prev - e)).toNat : Nat) : Int) = prev - temp := by
    omega
  rw [heq] at hmem
  exact hmax hmem

/-- Upper bound: every consecutive run of `S` is at most the loop's result,
given the loop invariants (the unprocessed suffix `l` is sorted and holds
exactly the members of `S` above `prev`, the current run is left-maximal of
length `temp`, and runs ending at or before its left end are bounded by
`longest`). -/
theorem longestLoop_upper (S : List Int) :
    ∀ (l : List Int) (prev : Int) (longest temp : Nat),
    l.Sorted (· < ·) →
    (∀ x ∈ l, prev < x) →
    (∀ x, x ∈ S → x ≤ prev ∨ x ∈ l) →
    1 ≤ temp →
    (prev - (temp : Int)) ∉ S →
    (∀ (e : Int) (n : Nat), 0 < n → (∀ k : Nat, k < n → (e - k) ∈ S) →
        e ≤ prev - temp → n ≤ longest) →
    ∀ (e : Int) (n : Nat), 0 < n → (∀ k : Nat, k < n → (e - k) ∈ S) →
      n ≤ longestLoop prev longest temp l := by
  intro l
  induction l with
  | nil =>
    intro prev longest temp _ _ hcov htemp hmax hclosed e n hn hrun
    rw [longestLoop]
    have heS : e ∈ S := by simpa using hrun 0 hn
    have hep : e ≤ prev := by
      rcases hcov e heS with h' | h'
      · exact h'
      · simp at h'
    rcases le_or_lt e (prev - temp) with hcase | hcase
    · exact le_trans (hclosed e n hn hrun hcase) (Nat.le_max_left _ _)
    · exact le_trans (run_in_current S prev temp hmax e n hn hrun hcase hep)
        (Nat.le_max_right _ _)
  | cons d rest ih =>
    intro prev longest temp hsort hgt hcov htemp hmax hclosed e n hn hrun
    have hdS : ∀ x ∈ rest, d < x := List.rel_of_sorted_cons hsort
    have hsort' : rest.Sorted (· < ·) := hsort.of_cons
    have hpd : prev < d := hgt d (List.mem_cons_self _ _)
    by_cases h : (d - prev == 1) = true
    · have hd1 : d = prev + 1 := by
        have h' : d - prev = 1 := by simpa using h
        omega
      rw [longestLoop, if_pos h]
      refine ih d longest (temp + 1) hsort' hdS ?_ (by omega) ?_ ?_ e n hn hrun
      · intro x hx
        rcases hcov x hx with h' | h'
        · left; omega
        · rcases List.mem_cons.mp h' with rfl | h''
          · left; omega
          · right; exact h''
      · have heq : d - ((temp + 1 : Nat) : Int) = prev - temp := by push_cast; omega
        rw [heq]; exact hmax
      · intro e' n' hn' hrun' he'
        refine hclosed e' n' hn' hrun' ?_
        push_cast at he' ⊢
        omega
    · have hd2 : prev + 2 ≤ d := by
        have hne : d - prev ≠ 1 := by simpa using h
        omega
      rw [longestLoop, if_neg h]
      refine ih d (max longest temp) 1 hsort' hdS ?_ le_rfl ?_ ?_ e n hn hrun
      · intro x hx
        rcases hcov x hx with h' | h'
        · left; omega
        · rcases List.mem_cons.mp h' with rfl | h''
          · left; omega
          · right; exact h''
      · intro hmem
        rcases hcov _ hmem with h' | h'
        · omega
        · rcases List.mem_cons.mp h' with heq | h''
          · omega
          · have := hdS _ h''
            omega
      · intro e' n' hn' hrun' he'
        have he'S : e' ∈ S := by simpa using hrun' 0 hn'
        have he'p : e' ≤ prev := by
          rcases hcov e' he'S with h' | h'
          · exact h'
          · rcases List.mem_cons.mp h' with rfl | h''
            · push_cast at he'; omega
            · have := hdS _ h''
              push_cast at he'
              omega
        rcases le_or_lt e' (prev - temp) with hcase | hcase
        · exact le_trans (hclosed e' n' hn' hrun' hcase) (Nat.le_max_left _ _)
        · exact le_trans (run_in_current S prev temp hmax e' n' hn' hrun' hcase he'p)
            (Nat.le_max_right _ _)

/-- The longest-streak branch structure of `calculate_streaks`. -/
theorem longestStreak_cases (events : List SessionEvent) (today : Date) :
    (calculateStreaks events today).longest_streak =
      match (completedWorkDays events).insertionSort (· ≤ ·) with
      | [] => 0
      | d :: rest => longestLoop d 0 1 rest := by
  by_cases hev : events.isEmpty
  · have hnil : completedWorkDays events = [] := by
      cases events with
      | nil => rfl
      | cons e rest => simp at hev
    simp [calculateStreaks, hev, hnil]
  · by_cases hd : completedWorkDays events = []
    · simp [calculateStreaks, hev, hd]
    · have hde : (completedWorkDays events).isEmpty = false := by
        simpa [List.isEmpty_iff] using hd
      rcases hL : (completedWorkDays events).insertionSort (· ≤ ·) with _ | ⟨d, rest⟩ <;>
        simp [calculateStreaks, hev, hde, hL]

/-- The sorted distinct completed-work day list is strictly sorted and has
the same members as `completedWorkDays`. -/
theorem sortedWorkDays_spec (events : List SessionEvent) :
    ((completedWorkDays events).insertionSort (· ≤ ·)).Sorted (· < ·) ∧
    ∀ x : Int, x ∈ (completedWorkDays events).insertionSort (· ≤ ·) ↔
      x ∈ completedWorkDays events := by
  constructor
  · have hperm := List.perm_insertionSort (· ≤ ·) (completedWorkDays events)
    have hnd : ((completedWorkDays events).insertionSort (· ≤ ·)).Nodup :=
      hperm.nodup_iff.mpr (List.nodup_dedup _)
    exact (List.sorted_insertionSort (· ≤ ·) _).lt_of_le hnd
  · intro x
    exact List.mem_insertionSort (· ≤ ·)

/-- Claim C6: `longest_streak` is the length of the longest run of
consecutive day numbers among the distinct completed-work dates — it is
witnessed by a run, and no run exceeds it (including the final run); two
runs of lengths 4 and 2 separated by a gap give 4. -/
theorem claim_C6 (events : List SessionEvent) (today : Date) :
    (∃ e : Int, ∀ k : Nat, k < (calculateStreaks events today).longest_streak →
        dayHasCompletedWork events (e - k) = true) ∧
    (∀ (e : Int) (n : Nat), (∀ k : Nat, k < n → dayHasCompletedWork events (e - k) = true) →
        n ≤ (calculateStreaks events today).longest_streak) ∧
    (calculateStreaks
        [⟨⟨⟨2024, 3, 1⟩, 9, 0, 0⟩, "work", "completed", "s1"⟩,
         ⟨⟨⟨2024, 3, 2⟩, 9, 0, 0⟩, "work", "completed", "s2"⟩,
         ⟨⟨⟨2024, 3, 3⟩, 9, 0, 0⟩, "work", "completed", "s3"⟩,
         ⟨⟨⟨2024, 3, 4⟩, 9, 0, 0⟩, "work", "completed", "s4"⟩,
         ⟨⟨⟨2024, 3, 8⟩, 9, 0, 0⟩, "work", "completed", "s5"⟩,
         ⟨⟨⟨2024, 3, 9⟩, 9, 0, 0⟩, "work", "completed", "s6"⟩]
        ⟨2024, 3, 20⟩).longest_streak = 4 := by
  obtain ⟨hsorted, hmem⟩ := sortedWorkDays_spec events
  have hmem' : ∀ x : Int,
      x ∈ (completedWorkDays events).insertionSort (· ≤ ·) ↔
        dayHasCompletedWork events x = true := by
    intro x
    rw [hmem x, mem_completedWorkDays]
  rw [longestStreak_cases]
  refine ⟨?_, ?_, by decide⟩ <;>
    rcases hL : (completedWorkDays events).insertionSort (· ≤ ·) with _ | ⟨d, rest⟩
  · exact ⟨0, fun k hk => by simp at hk⟩
  · -- lower bound via runScan_lower with S := the sorted list itself
    rw [hL] at hsorted hmem'
    have hrun1 : ∀ k : Nat, k < 1 → (d - (k : Int)) ∈ d :: rest := by
      intro k hk
      have hk0 : k = 0 := by omega
      subst hk0
      simp
    obtain ⟨e, he⟩ := runScan_lower (d :: rest) rest d 1
      (fun x hx => List.mem_cons_of_mem _ hx) hrun1
    refine ⟨e, fun k hk => ?_⟩
    rw [← hmem']
    have hk' : k < longestLoop d 0 1 rest := hk
    rw [longestLoop_eq_max, Nat.zero_max] at hk'
    exact he k hk'
  · -- upper bound, empty list: any run must be empty
    intro e n hrun
    match n with
    | 0 => simp
    | n + 1 =>
      have : dayHasCompletedWork events (e - (0 : Nat)) = true := hrun 0 (by omega)
      rw [← hmem'] at this
      rw [hL] at this
      simp at this
  · -- upper bound, nonempty list
    intro e n hrun
    match n with
    | 0 => exact Nat.zero_le _
    | n + 1 =>
      rw [hL] at hsorted hmem'
      have hdmin : ∀ x : Int, x ∈ d :: rest → d ≤ x := by
        intro x hx
        rcases List.mem_cons.mp hx with rfl | hx'
        · exact le_refl x
        · exact le_of_lt (List.rel_of_sorted_cons hsorted x hx')
      refine longestLoop_upper (d :: rest) rest d 0 1 hsorted.of_cons
        (List.rel_of_sorted_cons hsorted) (fun x hx => ?_) le_rfl ?_ ?_ e (n + 1)
        (by omega) (fun k hk => (hmem' _).mpr (hrun k hk))
      · rcases List.mem_cons.mp hx with rfl | hx'
        · exact Or.inl le_rfl
        · exact Or.inr hx'
      · intro hmem2
        have := hdmin _ hmem2
        omega
      · intro e' n' hn' hrun' he'
        have he'S : e' ∈ d :: rest := by simpa using hrun' 0 hn'
        have := hdmin _ he'S
        omega

/-- Witness for C6: the 4-day run 2024-03-01..04 realizes the bound. -/
theorem claim_C6_witness :
    4 ≤ (calculateStreaks
        [⟨⟨⟨2024, 3, 1⟩, 9, 0, 0⟩, "work", "completed", "s1"⟩,
         ⟨⟨⟨2024, 3, 2⟩, 9, 0, 0⟩, "work", "completed", "s2"⟩,
         ⟨⟨⟨2024, 3, 3⟩, 9, 0, 0⟩, "work", "completed", "s3"⟩,
         ⟨⟨⟨2024, 3, 4⟩, 9, 0, 0⟩, "work", "completed", "s4"⟩,
         ⟨⟨⟨2024, 3, 8⟩, 9, 0, 0⟩, "work", "completed", "s5"⟩,
         ⟨⟨⟨2024, 3, 9⟩, 9, 0, 0⟩, "work", "completed", "s6"⟩]
        ⟨2024, 3, 20⟩).longest_streak :=
  (claim_C6 _ ⟨2024, 3, 20⟩).2.1 ((Date.mk 2024 3 4).toDays) 4 (by decide)

end Pomodoro
